import Mathlib

/-!
Verification of the flow-layout container engine (`reportbro/containers.py`).

The container code is embedded shallowly: the mutable Python object graph of
document elements is modelled as a heap `Nat → Elem` keyed by element id,
and each container method becomes a pure state-passing function.  Element
behaviour (`get_next_render_element`, `is_printed`) is external to the
container module and is passed in as oracle functions, mirroring the element
contract the container consumes.
-/

namespace ReportBro

/-- State of one document element, as observed and mutated by the container
(`DocElementBase` contract).  The Python object reference is modelled by the
heap key; `predecessor`/`successors` hold keys of other elements. -/
structure Elem where
  y : Int
  x : Int
  sortOrder : Int
  bottom : Int
  isPageBreak : Bool
  spreadsheetHide : Bool
  firstRenderElement : Bool
  renderingComplete : Bool
  renderBottom : Int
  predecessor : Option Nat
  successors : List Nat
  deriving DecidableEq

/-- A fragment appended to `render_elements`: either a content fragment
produced by an element's `get_next_render_element` (tagged with the element
key and the offset it was requested at), or the page-break sentinel
(`PageBreakElement(report, dict(y=-1))` carries only its `y`). -/
inductive RFrag where
  | content (elemId : Nat) (offsetY : Int)
  | pageBreak (y : Int)
  deriving DecidableEq

/-- Result of an external `get_next_render_element` call: whether a fragment
was produced, the returned `complete` flag, and the element's updated
render-continuation state (`rendering_complete`, `render_bottom`,
`first_render_element`), which is the only element state such a call may
change. -/
structure RenderResult where
  fragment : Bool
  complete : Bool
  renderingComplete : Bool
  renderBottom : Int
  firstRenderElement : Bool

/-- Heap update at one key. -/
def setK (store : Nat → Elem) (i : Nat) (f : Elem → Elem) : Nat → Elem :=
  fun j => if j = i then f (store j) else store j

/-- Modelled from the spec: the element contract's render-continuation state.
Applying a `get_next_render_element` result updates exactly the element's
`rendering_complete`, `render_bottom` and `first_render_element` fields. -/
def applyRender (e : Elem) (r : RenderResult) : Elem :=
  { e with renderingComplete := r.renderingComplete,
           renderBottom := r.renderBottom,
           firstRenderElement := r.firstRenderElement }

/-- Modelled from the spec: `finish_empty_element(offset_y)` of the element
contract (in `elements.py`, not shown) marks the element complete with zero
footprint at the given offset. -/
def finishEmpty (e : Elem) (off : Int) : Elem :=
  { e with renderingComplete := true, renderBottom := off }

/-- `elem.predecessor and (elem.predecessor.id not in completed_elements or
not elem.predecessor.rendering_complete)` (containers.py line 69). -/
def predBlocked (completed : List Nat) (store : Nat → Elem) (e : Elem) : Bool :=
  match e.predecessor with
  | none => false
  | some pid => !(decide (pid ∈ completed)) || !(store pid).renderingComplete

/-- Placement offset of a non-page-break element
(containers.py lines 86-97). -/
def computeOffset (apb epb : Bool) (pageY : Int) (store : Nat → Elem) (e : Elem) : Int :=
  match e.predecessor with
  | some pid => (store pid).renderBottom + (e.y - (store pid).bottom)
  | none =>
    if apb then
      if e.firstRenderElement && epb then e.y - pageY else 0
    else e.y

/-- Mutable state threaded through one `create_render_elements` pass:
the heap, `render_elements`, `page_y`, the per-call `completed_elements`
and `processed_elements`, and the local `set_explicit_page_break` flag. -/
structure LoopState where
  store : Nat → Elem
  renderElements : List RFrag
  pageY : Int
  completed : List Nat
  processed : List Nat
  setEPB : Bool

/-- How one loop iteration of `create_render_elements` ends: early `return
True` (page break with breaks disallowed), a new page with the element kept
or consumed, or continuation with the element kept or deleted. -/
inductive StepRes where
  | abort
  | stopKeep
  | stopDrop
  | contKeep
  | contDrop
  deriving DecidableEq

/-- One iteration of the `while` loop of `create_render_elements`
(containers.py lines 67-118) on the element with key `eid`. -/
def step (gn : Elem → Int → Int → RenderResult) (ip : Elem → Bool) (h : Int)
    (apb epb : Bool) (ls : LoopState) (eid : Nat) : LoopState × StepRes :=
  let e := ls.store eid
  if predBlocked ls.completed ls.store e then
    (ls, StepRes.stopKeep)
  else if e.isPageBreak then
    if apb then
      ({ ls with setEPB := true, pageY := e.y }, StepRes.stopDrop)
    else
      (ls, StepRes.abort)
  else
    let off := computeOffset apb epb ls.pageY ls.store e
    if ip e then
      if h ≤ off then
        (ls, StepRes.stopKeep)
      else
        let r := gn e off h
        let st' := setK ls.store eid (fun e0 => applyRender e0 r)
        let rel' := if r.fragment then ls.renderElements ++ [RFrag.content eid off]
                    else ls.renderElements
        let proc' := if r.fragment && r.complete then ls.processed ++ [eid] else ls.processed
        if r.complete then
          ({ ls with store := st', renderElements := rel', processed := proc',
                     completed := ls.completed ++ [eid] }, StepRes.contDrop)
        else
          ({ ls with store := st', renderElements := rel', processed := proc' },
           StepRes.contKeep)
    else
      ({ ls with store := setK ls.store eid (fun e0 => finishEmpty e0 off),
                 processed := ls.processed ++ [eid],
                 completed := ls.completed ++ [eid] }, StepRes.contDrop)

/-- The `while` loop of `create_render_elements` over the pending queue.
Returns the final loop state, the remaining `sorted_elements` from the
current position on, and whether the early `return True` was taken. -/
def loop (gn : Elem → Int → Int → RenderResult) (ip : Elem → Bool) (h : Int)
    (apb epb : Bool) : LoopState → List Nat → LoopState × List Nat × Bool
  | ls, [] => (ls, [], false)
  | ls, e :: rest =>
    match step gn ip h apb epb ls e with
    | (ls', StepRes.abort) => (ls', [], true)
    | (ls', StepRes.stopKeep) => (ls', e :: rest, false)
    | (ls', StepRes.stopDrop) => (ls', rest, false)
    | (ls', StepRes.contDrop) => loop gn ip h apb epb ls' rest
    | (ls', StepRes.contKeep) =>
      match loop gn ip h apb epb ls' rest with
      | (ls'', rem, ab) => (ls'', e :: rem, ab)

/-- Post-pass bookkeeping (containers.py lines 126-130): for every processed
element, sever the predecessor link held by its successors. -/
def sever (store : Nat → Elem) (processed : List Nat) : Nat → Elem :=
  processed.foldl
    (fun st pid =>
      (st pid).successors.foldl
        (fun st2 sid => setK st2 sid (fun e => { e with predecessor := none })) st)
    store

/-- Container state (`Container.__init__`): the element heap plus the fields
of the Python object. -/
structure CState where
  store : Nat → Elem
  docElements : List Nat
  width : Int
  height : Int
  allowPageBreak : Bool
  containerOffsetY : Int
  sortedElements : List Nat
  renderElements : List RFrag
  explicitPageBreak : Bool
  pageY : Int

/-- A freshly constructed container (containers.py lines 7-20); the `None`
queues are modelled as empty lists. -/
def initContainer (store : Nat → Elem) : CState :=
  { store := store, docElements := [], width := 0, height := 0,
    allowPageBreak := true, containerOffsetY := 0, sortedElements := [],
    renderElements := [], explicitPageBreak := true, pageY := 0 }

/-- `Container.add`: append the element (stored at key `eid`). -/
def addElem (c : CState) (eid : Nat) (e : Elem) : CState :=
  { c with store := setK c.store eid (fun _ => e),
           docElements := c.docElements ++ [eid] }

/-- `create_render_elements(container_height, ctx, pdf_doc)`
(containers.py lines 60-131).  Returns the updated container and the
boolean result (`len(self.sorted_elements) == 0`, or the early `True`). -/
def createRenderElements (gn : Elem → Int → Int → RenderResult) (ip : Elem → Bool)
    (containerHeight : Int) (c : CState) : CState × Bool :=
  let ls0 : LoopState :=
    { store := c.store, renderElements := c.renderElements, pageY := c.pageY,
      completed := [], processed := [], setEPB := false }
  match loop gn ip containerHeight c.allowPageBreak c.explicitPageBreak ls0 c.sortedElements with
  | (ls, _, true) =>
    ({ c with store := ls.store, renderElements := ls.renderElements,
              pageY := ls.pageY, sortedElements := [] }, true)
  | (ls, rem, false) =>
    let epb' := if c.allowPageBreak then ls.setEPB else true
    if rem.isEmpty then
      ({ c with store := ls.store, renderElements := ls.renderElements,
                pageY := ls.pageY, sortedElements := rem,
                explicitPageBreak := epb' }, true)
    else
      ({ c with store := sever ls.store ls.processed,
                renderElements := ls.renderElements ++ [RFrag.pageBreak (-1)],
                pageY := ls.pageY, sortedElements := rem,
                explicitPageBreak := epb' }, false)

/-- Stable insertion into a sorted list: `x` goes before the first entry that
is not strictly below it.  Any stable sort realises Python's `sorted`; this
one reduces definitionally on concrete input. -/
def stableInsert (lt : Nat → Nat → Bool) (x : Nat) : List Nat → List Nat
  | [] => [x]
  | y :: ys => if lt y x then y :: stableInsert lt x ys else x :: y :: ys

/-- Stable sort realising Python's `sorted(..., key=...)`. -/
def stableSort (lt : Nat → Nat → Bool) : List Nat → List Nat
  | [] => []
  | x :: xs => stableInsert lt x (stableSort lt xs)

/-- Strict lexicographic order on `(item.y, item.sort_order)`, the document
sort key of `Container.prepare` (line 40). -/
def ltDoc (store : Nat → Elem) (a b : Nat) : Bool :=
  decide ((store a).y < (store b).y) ||
    (decide ((store a).y = (store b).y) && decide ((store a).sortOrder < (store b).sortOrder))

/-- Strict lexicographic order on `(item.y, item.x)`, the spreadsheet sort
key of `Container.prepare` (line 53). -/
def ltSS (store : Nat → Elem) (a b : Nat) : Bool :=
  decide ((store a).y < (store b).y) ||
    (decide ((store a).y = (store b).y) && decide ((store a).x < (store b).x))

/-- The inner scan of the predecessor search (containers.py lines 43-48):
fold over the already-sorted elements above the current one, from nearest to
farthest, keeping a candidate with `elem2.bottom <= elem.y` and replacing it
only on a strictly greater bottom.  Candidates are `(key, element)` pairs. -/
def scanStep (y : Int) (acc : Option (Nat × Elem)) (c : Nat × Elem) : Option (Nat × Elem) :=
  if c.2.bottom ≤ y &&
      (match acc with
       | none => true
       | some p => decide (p.2.bottom < c.2.bottom)) then
    some c
  else acc

/-- The full scan (fold of `scanStep` starting from `predecessor = None`). -/
def scanPred (y : Int) (cands : List (Nat × Elem)) : Option (Nat × Elem) :=
  cands.foldl (scanStep y) none

/-- Modelled from the spec: `elem.set_predecessor(predecessor)` of the
element contract (in `elements.py`, not shown) stores the predecessor
reference and records the reverse successor edge. -/
def setPredecessor (store : Nat → Elem) (eid pid : Nat) : Nat → Elem :=
  setK (setK store eid (fun e => { e with predecessor := some pid })) pid
    (fun p => { p with successors := p.successors ++ [eid] })

/-- One index `i` of the predecessor-assignment loop of `Container.prepare`
(lines 42-50): scan the prefix above position `i` and assign the winner
unless it is a page-break element. -/
def assignStep (sorted : List Nat) (i : Nat) (st : Nat → Elem) : Nat → Elem :=
  let eid := sorted.getD i 0
  match scanPred (st eid).y (((sorted.take i).reverse).map (fun j => (j, st j))) with
  | some p => if p.2.isPageBreak then st else setPredecessor st eid p.1
  | none => st

/-- The predecessor-assignment loop over indices `0, 1, ..., n-1`. -/
def assignLoop (sorted : List Nat) : Nat → (Nat → Elem) → (Nat → Elem)
  | 0, st => st
  | n + 1, st => assignStep sorted n (assignLoop sorted n st)

/-- `Container.prepare(ctx, pdf_doc, only_verify)` (containers.py lines
28-53).  The external `elem.prepare` call is the oracle `pe`; it may change
the element's computed layout but the container only resets the
render-continuation flags afterwards when page breaks are disallowed. -/
def prepare (pe : Elem → Elem) (pdfDoc onlyVerify : Bool) (c : CState) : CState :=
  let keep := c.docElements.filter
    (fun eid => pdfDoc || !(c.store eid).spreadsheetHide || onlyVerify)
  let store1 := keep.foldl
    (fun st eid =>
      setK st eid (fun e =>
        let e' := pe e
        if !c.allowPageBreak then
          { e' with firstRenderElement := true, renderingComplete := false }
        else e'))
    c.store
  if pdfDoc then
    let sorted := stableSort (ltDoc store1) keep
    { c with store := assignLoop sorted sorted.length store1,
             sortedElements := sorted, renderElements := [] }
  else
    { c with store := store1, sortedElements := stableSort (ltSS store1) keep }

/-- The prefix of `render_elements` emitted by `Container.render_pdf`
(before the first page-break sentinel) and the retained remainder
(everything after the sentinel; the sentinel itself is consumed). -/
def splitAtBreak : List RFrag → List RFrag × List RFrag
  | [] => ([], [])
  | f :: rest =>
    match f with
    | RFrag.pageBreak _ => ([], rest)
    | RFrag.content i o =>
      match splitAtBreak rest with
      | (em, rem) => (RFrag.content i o :: em, rem)

/-- `Container.render_pdf` (containers.py lines 133-142): emit fragments up
to the first page-break sentinel and drop the consumed prefix (sentinel
included).  Returns the updated container and the emitted fragments. -/
def renderPdf (c : CState) : CState × List RFrag :=
  match splitAtBreak c.renderElements with
  | (em, rem) => ({ c with renderElements := rem }, em)

/-- One row cluster of `Container.render_spreadsheet` (lines 160-166): every
element of the cluster is rendered starting at the same `current_row` (the
`row` value at cluster entry), `current_col` chains through the oracle, and
`row`/`max_col` accumulate the maxima of the reported values. -/
def clusterStep (o : Elem → Nat → Nat → Nat × Nat) (store : Nat → Elem)
    (row col maxCol : Nat) (cl : List Nat) : Nat × Nat :=
  let st := cl.foldl
    (fun (acc : Nat × Nat × Nat) eid =>
      match o (store eid) row acc.2.1 with
      | (tmpRow, c') => (max acc.1 tmpRow, c', max acc.2.2 c'))
    (row, col, maxCol)
  (st.1, st.2.2)

/-- The outer `while` of `Container.render_spreadsheet` (lines 148-166),
with fuel: collect the run of consecutive elements sharing the head's `y`,
render it as one cluster, and continue after the run.  Fuel `l.length`
always suffices since every iteration consumes at least the head. -/
def ssGo (o : Elem → Nat → Nat → Nat × Nat) (store : Nat → Elem) (col : Nat) :
    Nat → List Nat → Nat → Nat → Nat × Nat
  | _, [], row, maxCol => (row, maxCol)
  | 0, _ :: _, row, maxCol => (row, maxCol)
  | fuel + 1, e :: rest, row, maxCol =>
    let y := (store e).y
    let cl := e :: rest.takeWhile (fun i => decide ((store i).y = y))
    let rest' := rest.dropWhile (fun i => decide ((store i).y = y))
    match clusterStep o store row col maxCol cl with
    | (row', maxCol') => ssGo o store col fuel rest' row' maxCol'

/-- `Container.render_spreadsheet(row, col, ctx, workbook, worksheet)`
(containers.py lines 144-167).  The element-level sink call is the oracle
`o`; the function reads only the heap and the pending queue and returns the
final `(row, max_col)`. -/
def renderSpreadsheet (o : Elem → Nat → Nat → Nat × Nat) (store : Nat → Elem)
    (l : List Nat) (row col : Nat) : Nat × Nat :=
  ssGo o store col l.length l row col

/-- The maximal-run clustering of a queue by equal `y`, with fuel (the
specification-side description of the spreadsheet walk). -/
def clustersGo (store : Nat → Elem) : Nat → List Nat → List (List Nat)
  | _, [] => []
  | 0, _ :: _ => []
  | fuel + 1, e :: rest =>
    (e :: rest.takeWhile (fun i => decide ((store i).y = (store e).y))) ::
      clustersGo store fuel (rest.dropWhile (fun i => decide ((store i).y = (store e).y)))

/-- Partition of a queue into maximal runs of consecutive elements sharing
one `y` coordinate. -/
def clusters (store : Nat → Elem) (l : List Nat) : List (List Nat) :=
  clustersGo store l.length l

/-! Concrete instances used to witness the theorems below. -/

/-- A plain element template with all-zero geometry. -/
def baseElem : Elem :=
  { y := 0, x := 0, sortOrder := 0, bottom := 0, isPageBreak := false,
    spreadsheetHide := false, firstRenderElement := true, renderingComplete := false,
    renderBottom := 0, predecessor := none, successors := [] }

/-- A heap whose every cell is the plain element. -/
def stZero : Nat → Elem := fun _ => baseElem

/-- An element oracle that always produces a fragment and completes,
reporting a rendered bottom at the designed height below the offset. -/
def gnTrue : Elem → Int → Int → RenderResult := fun e off _ =>
  { fragment := true, complete := true, renderingComplete := true,
    renderBottom := off + (e.bottom - e.y), firstRenderElement := false }

/-- `is_printed` oracle that always prints. -/
def ipTrue : Elem → Bool := fun _ => true

/-- `is_printed` oracle that never prints. -/
def ipNever : Elem → Bool := fun _ => false

/-- Mid-pass state with element 2 depending on the never-completed element 1. -/
def lsC1 : LoopState :=
  { store := fun i => if i = 2 then { baseElem with y := 30, predecessor := some 1 } else baseElem,
    renderElements := [], pageY := 0, completed := [], processed := [], setEPB := false }

/-- Mid-pass state where predecessor 1 (nominal bottom 100) has completed at
rendered bottom 140 and element 2 (nominal top 120) depends on it. -/
def lsC2 : LoopState :=
  { store := fun i =>
      if i = 1 then { baseElem with bottom := 100, renderBottom := 140, renderingComplete := true }
      else if i = 2 then { baseElem with y := 120, bottom := 170, predecessor := some 1 }
      else baseElem,
    renderElements := [], pageY := 0, completed := [1], processed := [], setEPB := false }

/-- A header-band container (breaks disallowed) whose queue starts with a
page-break element followed by a pending element. -/
def cC3 : CState :=
  { store := fun i => if i = 5 then { baseElem with isPageBreak := true } else baseElem,
    docElements := [5, 6], width := 0, height := 0, allowPageBreak := false,
    containerOffsetY := 0, sortedElements := [5, 6],
    renderElements := [RFrag.content 9 0], explicitPageBreak := true, pageY := 0 }

/-- Non-break element with bottom 10. -/
def elemLow : Elem := { baseElem with y := 0, bottom := 10 }

/-- Page-break element sitting between the other two (bottom 20). -/
def elemBreak : Elem := { baseElem with y := 20, bottom := 20, isPageBreak := true }

/-- Dependent element with top 30. -/
def elemDep : Elem := { baseElem with y := 30, bottom := 40 }

/-- Container for the predecessor-assignment scenario, prepared in document
mode: sorted order is element 1 (non-break, bottom 10), element 2
(page break, bottom 20), element 3 (top 30). -/
def cC4 : CState :=
  prepare id true false
    (addElem (addElem (addElem (initContainer stZero) 1 elemLow) 2 elemBreak) 3 elemDep)

/-- A single element at nominal top 50. -/
def elemFifty : Elem := { baseElem with y := 50, bottom := 60 }

/-- A freshly constructed and prepared document-mode container holding one
element at top 50. -/
def cC5 : CState := prepare id true false (addElem (initContainer stZero) 1 elemFifty)

/-- A single element at nominal top 100. -/
def elemHundred : Elem := { baseElem with y := 100, bottom := 110 }

/-- A freshly constructed and prepared document-mode container holding one
element at top 100 (its offset equals an available height of 100). -/
def cC6 : CState := prepare id true false (addElem (initContainer stZero) 2 elemHundred)

/-- Mid-pass state with a plain pending element (key 3). -/
def lsC7 : LoopState :=
  { store := fun i => if i = 3 then { baseElem with y := 40, bottom := 45 } else baseElem,
    renderElements := [], pageY := 0, completed := [], processed := [], setEPB := false }

/-- Mid-pass state over the heap of `cC6`, before its first element. -/
def lsC6 : LoopState :=
  { store := cC6.store, renderElements := [], pageY := 0,
    completed := [], processed := [], setEPB := false }

/-- Container with one element that fits at offset 0 and one at top 200 that
overflows a page of height 100 (explicit break active, so offsets are
nominal tops). -/
def cC8 : CState :=
  { store := fun i =>
      if i = 7 then { baseElem with y := 0, bottom := 5 }
      else { baseElem with y := 200, bottom := 210 },
    docElements := [7, 8], width := 0, height := 0, allowPageBreak := true,
    containerOffsetY := 0, sortedElements := [7, 8], renderElements := [],
    explicitPageBreak := true, pageY := 0 }

/-- Heap for the predecessor-assignment witness: key 1 the low non-break
element, key 2 the page break, key 3 the dependent element. -/
def stC4 : Nat → Elem :=
  fun i => if i = 1 then elemLow else if i = 2 then elemBreak
    else if i = 3 then elemDep else baseElem

/-- Spreadsheet heap: elements 1, 2, 3 share top 0, element 4 has top 10. -/
def stC9 : Nat → Elem :=
  fun i => if i = 4 then { baseElem with y := 10 } else { baseElem with x := (i : Int) }

/-- Spreadsheet sink oracle reporting one row used and the next column. -/
def oC9 : Elem → Nat → Nat → Nat × Nat := fun _ r c => (r + 1, c + 1)

section StepLemmas

variable (gn : Elem → Int → Int → RenderResult) (ip : Elem → Bool) (h : Int) (apb epb : Bool)

lemma setK_ne {store : Nat → Elem} {i j : Nat} {f : Elem → Elem} (hj : j ≠ i) :
    setK store i f j = store j := by
  simp [setK, hj]

lemma setK_self {store : Nat → Elem} {i : Nat} {f : Elem → Elem} :
    setK store i f i = f (store i) := by
  simp [setK]

lemma step_store_other (ls : LoopState) (eid : Nat) {j : Nat} (hj : j ≠ eid) :
    (step gn ip h apb epb ls eid).1.store j = ls.store j := by
  unfold step
  dsimp only
  split_ifs <;> simp [setK, hj]

lemma step_pred_stable (ls : LoopState) (eid : Nat) (j : Nat) :
    ((step gn ip h apb epb ls eid).1.store j).predecessor = (ls.store j).predecessor := by
  unfold step
  dsimp only
  split_ifs <;> (by_cases hj : j = eid <;> simp [setK, hj, applyRender, finishEmpty])

lemma step_completed_cases (ls : LoopState) (eid : Nat) :
    (step gn ip h apb epb ls eid).1.completed = ls.completed ∨
    (step gn ip h apb epb ls eid).1.completed = ls.completed ++ [eid] := by
  unfold step
  dsimp only
  split_ifs <;> simp

lemma step_completed_mono (ls : LoopState) (eid : Nat) {x : Nat} (hx : x ∈ ls.completed) :
    x ∈ (step gn ip h apb epb ls eid).1.completed := by
  rcases step_completed_cases gn ip h apb epb ls eid with h1 | h1 <;>
    rw [h1] <;> simp [hx]

lemma step_rel_cases (ls : LoopState) (eid : Nat) :
    (step gn ip h apb epb ls eid).1.renderElements = ls.renderElements ∨
    (step gn ip h apb epb ls eid).1.renderElements =
      ls.renderElements ++
        [RFrag.content eid (computeOffset apb epb ls.pageY ls.store (ls.store eid))] := by
  unfold step
  dsimp only
  split_ifs <;> simp

lemma step_blocked (ls : LoopState) (eid : Nat)
    (hb : predBlocked ls.completed ls.store (ls.store eid) = true) :
    step gn ip h apb epb ls eid = (ls, StepRes.stopKeep) := by
  unfold step
  dsimp only
  simp [hb]

lemma step_rel_append_blocked (ls : LoopState) (eid : Nat)
    (hrel : (step gn ip h apb epb ls eid).1.renderElements ≠ ls.renderElements) :
    predBlocked ls.completed ls.store (ls.store eid) = false := by
  by_cases hb : predBlocked ls.completed ls.store (ls.store eid) = true
  · rw [step_blocked gn ip h apb epb ls eid hb] at hrel
    exact absurd rfl hrel
  · exact Bool.not_eq_true _ ▸ Bool.of_not_eq_true hb

end StepLemmas

section LoopLemmas

variable (gn : Elem → Int → Int → RenderResult) (ip : Elem → Bool) (h : Int) (apb epb : Bool)

lemma loop_store_other : ∀ (pending : List Nat) (ls : LoopState) {i : Nat}, i ∉ pending →
    (loop gn ip h apb epb ls pending).1.store i = ls.store i := by
  intro pending
  induction pending with
  | nil => intro ls i _; rfl
  | cons e rest ih =>
    intro ls i hi
    have hie : i ≠ e := fun hh => hi (hh ▸ List.mem_cons_self e rest)
    have hir : i ∉ rest := fun hh => hi (List.mem_cons_of_mem _ hh)
    rcases hs : step gn ip h apb epb ls e with ⟨ls₁, sr⟩
    have hso : ls₁.store i = ls.store i := by
      have hx := step_store_other gn ip h apb epb ls e hie
      rw [hs] at hx; exact hx
    cases sr
    · simpa [loop, hs] using hso
    · simpa [loop, hs] using hso
    · simpa [loop, hs] using hso
    · rcases hr : loop gn ip h apb epb ls₁ rest with ⟨ls₂, rem, ab⟩
      have hx := ih ls₁ hir
      rw [hr] at hx
      simpa [loop, hs, hr] using hx.trans hso
    · have hx := ih ls₁ hir
      simpa [loop, hs] using hx.trans hso

lemma loop_pred_stable : ∀ (pending : List Nat) (ls : LoopState) (i : Nat),
    ((loop gn ip h apb epb ls pending).1.store i).predecessor = (ls.store i).predecessor := by
  intro pending
  induction pending with
  | nil => intro ls i; rfl
  | cons e rest ih =>
    intro ls i
    rcases hs : step gn ip h apb epb ls e with ⟨ls₁, sr⟩
    have hso : (ls₁.store i).predecessor = (ls.store i).predecessor := by
      have hx := step_pred_stable gn ip h apb epb ls e i
      rw [hs] at hx; exact hx
    cases sr
    · simpa [loop, hs] using hso
    · simpa [loop, hs] using hso
    · simpa [loop, hs] using hso
    · rcases hr : loop gn ip h apb epb ls₁ rest with ⟨ls₂, rem, ab⟩
      have hx := ih ls₁ i
      rw [hr] at hx
      simpa [loop, hs, hr] using hx.trans hso
    · have hx := ih ls₁ i
      simpa [loop, hs] using hx.trans hso

lemma loop_completed_mono : ∀ (pending : List Nat) (ls : LoopState) {x : Nat},
    x ∈ ls.completed → x ∈ (loop gn ip h apb epb ls pending).1.completed := by
  intro pending
  induction pending with
  | nil => intro ls x hx; exact hx
  | cons e rest ih =>
    intro ls x hx
    rcases hs : step gn ip h apb epb ls e with ⟨ls₁, sr⟩
    have hx₁ : x ∈ ls₁.completed := by
      have hm := step_completed_mono gn ip h apb epb ls e hx
      rw [hs] at hm; exact hm
    cases sr
    · simpa [loop, hs] using hx₁
    · simpa [loop, hs] using hx₁
    · simpa [loop, hs] using hx₁
    · rcases hr : loop gn ip h apb epb ls₁ rest with ⟨ls₂, rem, ab⟩
      have hm := ih ls₁ hx₁
      rw [hr] at hm
      simpa [loop, hs, hr] using hm
    · have hm := ih ls₁ hx₁
      simpa [loop, hs] using hm

lemma loop_rel_content : ∀ (pending : List Nat) (ls : LoopState),
    ∃ new, (loop gn ip h apb epb ls pending).1.renderElements = ls.renderElements ++ new ∧
      ∀ f ∈ new, ∃ i o, f = RFrag.content i o := by
  intro pending
  induction pending with
  | nil => intro ls; exact ⟨[], by simp [loop], by simp⟩
  | cons e rest ih =>
    intro ls
    rcases hs : step gn ip h apb epb ls e with ⟨ls₁, sr⟩
    have hrel : ∃ fr, ls₁.renderElements = ls.renderElements ++ fr ∧
        ∀ f ∈ fr, ∃ i o, f = RFrag.content i o := by
      rcases step_rel_cases gn ip h apb epb ls e with h1 | h1 <;>
        rw [hs] at h1 <;> dsimp only at h1
      · exact ⟨[], by simp [h1], by simp⟩
      · exact ⟨_, h1, by simp⟩
    rcases hrel with ⟨fr, hfr, hfrc⟩
    cases sr
    · exact ⟨fr, by simpa [loop, hs] using hfr, hfrc⟩
    · exact ⟨fr, by simpa [loop, hs] using hfr, hfrc⟩
    · exact ⟨fr, by simpa [loop, hs] using hfr, hfrc⟩
    · rcases hr : loop gn ip h apb epb ls₁ rest with ⟨ls₂, rem, ab⟩
      rcases ih ls₁ with ⟨new₁, hnew₁, hnc₁⟩
      rw [hr] at hnew₁
      refine ⟨fr ++ new₁, ?_, ?_⟩
      · simp only [loop, hs, hr]
        rw [hnew₁, hfr, List.append_assoc]
      · intro f hf
        rcases List.mem_append.mp hf with hf | hf
        · exact hfrc f hf
        · exact hnc₁ f hf
    · rcases ih ls₁ with ⟨new₁, hnew₁, hnc₁⟩
      refine ⟨fr ++ new₁, ?_, ?_⟩
      · simp only [loop, hs]
        rw [hnew₁, hfr, List.append_assoc]
      · intro f hf
        rcases List.mem_append.mp hf with hf | hf
        · exact hfrc f hf
        · exact hnc₁ f hf

end LoopLemmas

section FragSound

variable (gn : Elem → Int → Int → RenderResult) (ip : Elem → Bool) (h : Int) (apb epb : Bool)

lemma predBlocked_eq_false {completed : List Nat} {store : Nat → Elem} {e : Elem} {pid : Nat}
    (hb : predBlocked completed store e = false) (hp : e.predecessor = some pid) :
    pid ∈ completed ∧ (store pid).renderingComplete = true := by
  unfold predBlocked at hb
  rw [hp] at hb
  simpa using hb

lemma head_frag_sound (rest : List Nat) {ls ls₁ fin : LoopState} {e : Nat} {sr : StepRes}
    (hs : step gn ip h apb epb ls e = (ls₁, sr))
    (hfin_pred : ∀ i, (fin.store i).predecessor = (ls₁.store i).predecessor)
    (hfin_comp : ∀ x, x ∈ ls₁.completed → x ∈ fin.completed)
    (hfin_store : ∀ i, i ∉ rest → fin.store i = ls₁.store i)
    (hb : predBlocked ls.completed ls.store (ls.store e) = false)
    (hcomp : ∀ i ∈ e :: rest, i ∉ ls.completed) :
    ∀ pid, (fin.store e).predecessor = some pid →
      pid ∈ fin.completed ∧ (fin.store pid).renderingComplete = true := by
  intro pid hp
  have hpe : (ls.store e).predecessor = some pid := by
    rw [hfin_pred e] at hp
    have hps := step_pred_stable gn ip h apb epb ls e e
    rw [hs] at hps
    dsimp only at hps
    rw [hps] at hp
    exact hp
  have hmain := predBlocked_eq_false hb hpe
  have hpid_ne : pid ≠ e :=
    fun hh => (hcomp e (List.mem_cons_self e rest)) (hh ▸ hmain.1)
  have hpid_rest : pid ∉ rest :=
    fun hh => (hcomp pid (List.mem_cons_of_mem _ hh)) hmain.1
  constructor
  · apply hfin_comp
    have hcm := step_completed_mono gn ip h apb epb ls e hmain.1
    rw [hs] at hcm
    exact hcm
  · rw [hfin_store pid hpid_rest]
    have hso := step_store_other gn ip h apb epb ls e hpid_ne
    rw [hs] at hso
    dsimp only at hso
    rw [hso]
    exact hmain.2

lemma loop_frag_sound : ∀ (pending : List Nat) (ls : LoopState),
    pending.Nodup → (∀ i ∈ pending, i ∉ ls.completed) →
    ∃ new, (loop gn ip h apb epb ls pending).1.renderElements = ls.renderElements ++ new ∧
      ∀ eid off, RFrag.content eid off ∈ new →
        ∀ pid, ((loop gn ip h apb epb ls pending).1.store eid).predecessor = some pid →
          pid ∈ (loop gn ip h apb epb ls pending).1.completed ∧
          ((loop gn ip h apb epb ls pending).1.store pid).renderingComplete = true := by
  intro pending
  induction pending with
  | nil =>
    intro ls _ _
    exact ⟨[], by simp [loop], by intro eid off hf; simp at hf⟩
  | cons e rest ih =>
    intro ls hnd hcomp
    have hnd' : rest.Nodup := (List.nodup_cons.mp hnd).2
    have hece : e ∉ rest := (List.nodup_cons.mp hnd).1
    rcases hs : step gn ip h apb epb ls e with ⟨ls₁, sr⟩
    have hrelc : ls₁.renderElements = ls.renderElements ∨
        ls₁.renderElements = ls.renderElements ++
          [RFrag.content e (computeOffset apb epb ls.pageY ls.store (ls.store e))] := by
      have hx := step_rel_cases gn ip h apb epb ls e
      rw [hs] at hx
      dsimp only at hx
      exact hx
    have hcomp₁ : ∀ i ∈ rest, i ∉ ls₁.completed := by
      intro i hi
      have h₁ : i ∉ ls.completed := hcomp i (List.mem_cons_of_mem _ hi)
      have hine : i ≠ e := fun hh => hece (hh ▸ hi)
      rcases step_completed_cases gn ip h apb epb ls e with hcc | hcc <;>
        rw [hs] at hcc <;> dsimp only at hcc <;> rw [hcc]
      · exact h₁
      · intro hmem
        rcases List.mem_append.mp hmem with hmem | hmem
        · exact h₁ hmem
        · exact hine (List.mem_singleton.mp hmem)
    have hbfrag : ∀ off : Int, ls₁.renderElements = ls.renderElements ++ [RFrag.content e off] →
        predBlocked ls.completed ls.store (ls.store e) = false := by
      intro off hne
      apply step_rel_append_blocked gn ip h apb epb ls e
      rw [hs]
      dsimp only
      rw [hne]
      simp
    cases sr
    case abort | stopKeep | stopDrop =>
      refine ⟨(loop gn ip h apb epb ls (e :: rest)).1.renderElements.drop
        ls.renderElements.length, ?_, ?_⟩
      all_goals
        have hfin : (loop gn ip h apb epb ls (e :: rest)).1 = ls₁ := by
          simp [loop, hs]
      · rcases hrelc with h1 | h1 <;> rw [hfin, h1] <;> simp
      · intro eid off hf pid hp
        rw [hfin] at hf hp ⊢
        rcases hrelc with h1 | h1
        · rw [h1] at hf
          simp at hf
        · rw [h1] at hf
          simp at hf
          rcases hf with ⟨heid, hoff⟩
          subst heid
          exact head_frag_sound gn ip h apb epb rest hs (fun i => rfl)
            (fun x hx => hx) (fun i _ => rfl) (hbfrag _ h1) hcomp pid hp
    case contDrop =>
      have hfin : (loop gn ip h apb epb ls (e :: rest)) = loop gn ip h apb epb ls₁ rest := by
        simp [loop, hs]
      rcases ih ls₁ hnd' hcomp₁ with ⟨new₁, hnew₁, hprop₁⟩
      rcases hrelc with h1 | h1
      · refine ⟨new₁, ?_, ?_⟩
        · rw [hfin, hnew₁, h1]
        · intro eid off hf pid hp
          rw [hfin] at hp ⊢
          exact hprop₁ eid off hf pid hp
      · refine ⟨RFrag.content e (computeOffset apb epb ls.pageY ls.store (ls.store e)) :: new₁,
          ?_, ?_⟩
        · rw [hfin, hnew₁, h1]
          simp
        · intro eid off hf pid hp
          rw [hfin] at hp ⊢
          rcases List.mem_cons.mp hf with hf | hf
          · have heid : eid = e := by
              injection hf.symm with h2 h3
              exact h2.symm
            subst heid
            refine head_frag_sound gn ip h apb epb rest hs ?_ ?_ ?_
              (hbfrag _ h1) hcomp pid hp
            · intro i
              exact loop_pred_stable gn ip h apb epb rest ls₁ i
            · intro x hx
              exact loop_completed_mono gn ip h apb epb rest ls₁ hx
            · intro i hi
              exact loop_store_other gn ip h apb epb rest ls₁ hi
          · exact hprop₁ eid off hf pid hp
    case contKeep =>
      rcases hr : loop gn ip h apb epb ls₁ rest with ⟨ls₂, rem, ab⟩
      have hfin : (loop gn ip h apb epb ls (e :: rest)).1 = ls₂ := by
        simp [loop, hs, hr]
      rcases ih ls₁ hnd' hcomp₁ with ⟨new₁, hnew₁, hprop₁⟩
      rw [hr] at hnew₁
      dsimp only at hnew₁
      rcases hrelc with h1 | h1
      · refine ⟨new₁, ?_, ?_⟩
        · rw [hfin, hnew₁, h1]
        · intro eid off hf pid hp
          rw [hfin] at hp ⊢
          have hx := hprop₁ eid off hf pid
          rw [hr] at hx
          dsimp only at hx
          exact hx hp
      · refine ⟨RFrag.content e (computeOffset apb epb ls.pageY ls.store (ls.store e)) :: new₁,
          ?_, ?_⟩
        · rw [hfin, hnew₁, h1]
          simp
        · intro eid off hf pid hp
          rw [hfin] at hp ⊢
          rcases List.mem_cons.mp hf with hf | hf
          · have heid : eid = e := by
              injection hf.symm with h2 h3
              exact h2.symm
            subst heid
            have hps : ∀ i, (ls₂.store i).predecessor = (ls₁.store i).predecessor := by
              intro i
              have hx := loop_pred_stable gn ip h apb epb rest ls₁ i
              rw [hr] at hx
              exact hx
            have hcm : ∀ x, x ∈ ls₁.completed → x ∈ ls₂.completed := by
              intro x hx
              have hy := loop_completed_mono gn ip h apb epb rest ls₁ hx
              rw [hr] at hy
              exact hy
            have hsu : ∀ i, i ∉ rest → ls₂.store i = ls₁.store i := by
              intro i hi
              have hy := loop_store_other gn ip h apb epb rest ls₁ hi
              rw [hr] at hy
              exact hy
            exact head_frag_sound gn ip h apb epb rest hs hps hcm hsu
              (hbfrag _ h1) hcomp pid hp
          · have hx := hprop₁ eid off hf pid
            rw [hr] at hx
            dsimp only at hx
            exact hx hp

end FragSound

/-- C1: In a `create_render_elements` pass, no render fragment of an element
with a defined predecessor is appended to `renderElements` before the
predecessor has been marked complete within the current call (member of the
call's `completed_elements` with `rendering_complete` true), and when the
element's predecessor is not yet complete the pass stops advancing,
returning the element (and everything after it) as still pending so that it
is deferred to a new page. -/
theorem c1_predecessor_order (gn : Elem → Int → Int → RenderResult) (ip : Elem → Bool)
    (h : Int) (apb epb : Bool) (ls : LoopState) (pending : List Nat)
    (hnd : pending.Nodup) (hcomp : ∀ i ∈ pending, i ∉ ls.completed) :
    (∃ new, (loop gn ip h apb epb ls pending).1.renderElements = ls.renderElements ++ new ∧
      ∀ eid off, RFrag.content eid off ∈ new →
        ∀ pid, ((loop gn ip h apb epb ls pending).1.store eid).predecessor = some pid →
          pid ∈ (loop gn ip h apb epb ls pending).1.completed ∧
          ((loop gn ip h apb epb ls pending).1.store pid).renderingComplete = true)
    ∧ (∀ e rest, pending = e :: rest →
        predBlocked ls.completed ls.store (ls.store e) = true →
        loop gn ip h apb epb ls pending = (ls, e :: rest, false)) := by
  constructor
  · exact loop_frag_sound gn ip h apb epb pending ls hnd hcomp
  · intro e rest hp hb
    subst hp
    simp [loop, step_blocked gn ip h apb epb ls e hb]

/-- Witness for C1 at a concrete input: element 2 depends on element 1,
which is not completed, so the pass stops with element 2 still pending. -/
theorem c1_predecessor_order_witness :
    ([2] : List Nat).Nodup ∧ (∀ i ∈ ([2] : List Nat), i ∉ lsC1.completed) ∧
    predBlocked lsC1.completed lsC1.store (lsC1.store 2) = true ∧
    loop gnTrue ipTrue 100 true true lsC1 [2] = (lsC1, [2], false) :=
  ⟨by decide, by decide, by decide,
    (c1_predecessor_order gnTrue ipTrue 100 true true lsC1 [2] (by decide)
      (by decide)).2 2 [] rfl (by decide)⟩

/-- C2: when an element with a completed predecessor is rendered, its
placement offset is the predecessor's rendered bottom plus the element's
nominal top minus the predecessor's nominal bottom, and the produced
fragment carries exactly that offset. -/
theorem c2_chain_offset (gn : Elem → Int → Int → RenderResult) (ip : Elem → Bool)
    (h : Int) (apb epb : Bool) (ls : LoopState) (eid pid : Nat)
    (hpred : (ls.store eid).predecessor = some pid)
    (hb : predBlocked ls.completed ls.store (ls.store eid) = false)
    (hpb : (ls.store eid).isPageBreak = false)
    (hip : ip (ls.store eid) = true)
    (hoff : computeOffset apb epb ls.pageY ls.store (ls.store eid) < h)
    (hfrag : (gn (ls.store eid)
        (computeOffset apb epb ls.pageY ls.store (ls.store eid)) h).fragment = true) :
    computeOffset apb epb ls.pageY ls.store (ls.store eid)
      = (ls.store pid).renderBottom + ((ls.store eid).y - (ls.store pid).bottom)
    ∧ (step gn ip h apb epb ls eid).1.renderElements
      = ls.renderElements ++
          [RFrag.content eid
            ((ls.store pid).renderBottom + ((ls.store eid).y - (ls.store pid).bottom))] := by
  have hco : computeOffset apb epb ls.pageY ls.store (ls.store eid)
      = (ls.store pid).renderBottom + ((ls.store eid).y - (ls.store pid).bottom) := by
    unfold computeOffset
    rw [hpred]
  refine ⟨hco, ?_⟩
  rw [← hco]
  unfold step
  dsimp only
  rw [if_neg (by simp [hb]), if_neg (by simp [hpb]), if_pos (by simp [hip]),
    if_neg (not_le.mpr hoff)]
  split_ifs <;> simp [hfrag]

/-- Witness for C2 at the spec's numbers: predecessor nominal bottom 100,
rendered bottom 140, dependent nominal top 120, so the offset is 160. -/
theorem c2_chain_offset_witness :
    computeOffset true true lsC2.pageY lsC2.store (lsC2.store 2) = 160 ∧
    (step gnTrue ipTrue 1000 true true lsC2 2).1.renderElements
      = lsC2.renderElements ++ [RFrag.content 2 160] := by
  constructor
  · have h2 := (c2_chain_offset gnTrue ipTrue 1000 true true lsC2 2 1 rfl (by decide)
      rfl rfl (by decide) rfl).1
    rw [h2]
    decide
  · have h2 := (c2_chain_offset gnTrue ipTrue 1000 true true lsC2 2 1 rfl (by decide)
      rfl rfl (by decide) rfl).2
    rw [h2]
    decide

/-- C6 (amended): for a printed element, the pass ends the page without
consuming the element exactly when its computed offset is greater than or
equal to the available height (`offset_y >= container_height`); when the
offset is strictly below the height the element is asked to produce a
render fragment (its state is updated by the render call and the fragment,
if any, is appended at that offset). -/
theorem c6_offset_boundary (gn : Elem → Int → Int → RenderResult) (ip : Elem → Bool)
    (h : Int) (apb epb : Bool) (ls : LoopState) (eid : Nat) (rest : List Nat)
    (hb : predBlocked ls.completed ls.store (ls.store eid) = false)
    (hpb : (ls.store eid).isPageBreak = false)
    (hip : ip (ls.store eid) = true) :
    (h ≤ computeOffset apb epb ls.pageY ls.store (ls.store eid) →
      step gn ip h apb epb ls eid = (ls, StepRes.stopKeep) ∧
      loop gn ip h apb epb ls (eid :: rest) = (ls, eid :: rest, false))
    ∧ (computeOffset apb epb ls.pageY ls.store (ls.store eid) < h →
      (step gn ip h apb epb ls eid).1.renderElements
        = ls.renderElements ++
            (if (gn (ls.store eid)
                  (computeOffset apb epb ls.pageY ls.store (ls.store eid)) h).fragment then
              [RFrag.content eid (computeOffset apb epb ls.pageY ls.store (ls.store eid))]
            else []) ∧
      (step gn ip h apb epb ls eid).1.store eid
        = applyRender (ls.store eid)
            (gn (ls.store eid) (computeOffset apb epb ls.pageY ls.store (ls.store eid)) h)) := by
  constructor
  · intro hle
    have hstep : step gn ip h apb epb ls eid = (ls, StepRes.stopKeep) := by
      unfold step
      dsimp only
      rw [if_neg (by simp [hb]), if_neg (by simp [hpb]), if_pos (by simp [hip]), if_pos hle]
    exact ⟨hstep, by simp [loop, hstep]⟩
  · intro hlt
    unfold step
    dsimp only
    rw [if_neg (by simp [hb]), if_neg (by simp [hpb]), if_pos (by simp [hip]),
      if_neg (not_le.mpr hlt)]
    constructor
    · split_ifs <;> simp [setK]
    · split_ifs <;> simp [setK]

/-- Witness for C6 (amended) at a concrete input: the element of `cC6` has
offset 100 on a page of height 100, so the page ends with the element kept
pending. -/
theorem c6_offset_boundary_witness :
    computeOffset true true lsC6.pageY lsC6.store (lsC6.store 2) = 100 ∧
    step gnTrue ipTrue 100 true true lsC6 2 = (lsC6, StepRes.stopKeep) ∧
    loop gnTrue ipTrue 100 true true lsC6 [2] = (lsC6, [2], false) := by
  refine ⟨by decide, ?_⟩
  have hx := (c6_offset_boundary gnTrue ipTrue 100 true true lsC6 2 []
    (by decide) (by decide) rfl).1 (by decide)
  exact hx

/-- C7: an element whose `is_printed` evaluates false is removed from the
pending queue (the loop continues on the remaining elements without it),
marked complete via `finish_empty_element` at its computed offset (zero
footprint: `rendering_complete` true, `render_bottom` equal to the offset),
with no fragment appended — with no hypothesis on the available height. -/
theorem c7_unprinted_removed (gn : Elem → Int → Int → RenderResult) (ip : Elem → Bool)
    (h : Int) (apb epb : Bool) (ls : LoopState) (eid : Nat) (rest : List Nat)
    (hb : predBlocked ls.completed ls.store (ls.store eid) = false)
    (hpb : (ls.store eid).isPageBreak = false)
    (hip : ip (ls.store eid) = false) :
    step gn ip h apb epb ls eid
      = ({ ls with
            store := setK ls.store eid
              (fun e0 => finishEmpty e0 (computeOffset apb epb ls.pageY ls.store (ls.store eid))),
            processed := ls.processed ++ [eid],
            completed := ls.completed ++ [eid] }, StepRes.contDrop)
    ∧ ((step gn ip h apb epb ls eid).1.store eid).renderingComplete = true
    ∧ ((step gn ip h apb epb ls eid).1.store eid).renderBottom
        = computeOffset apb epb ls.pageY ls.store (ls.store eid)
    ∧ (step gn ip h apb epb ls eid).1.renderElements = ls.renderElements
    ∧ eid ∈ (step gn ip h apb epb ls eid).1.completed
    ∧ loop gn ip h apb epb ls (eid :: rest)
        = loop gn ip h apb epb (step gn ip h apb epb ls eid).1 rest := by
  have hstep : step gn ip h apb epb ls eid
      = ({ ls with
            store := setK ls.store eid
              (fun e0 => finishEmpty e0 (computeOffset apb epb ls.pageY ls.store (ls.store eid))),
            processed := ls.processed ++ [eid],
            completed := ls.completed ++ [eid] }, StepRes.contDrop) := by
    unfold step
    dsimp only
    rw [if_neg (by simp [hb]), if_neg (by simp [hpb]), if_neg (by simp [hip])]
  refine ⟨hstep, ?_, ?_, ?_, ?_, ?_⟩
  · rw [hstep]
    simp [setK, finishEmpty]
  · rw [hstep]
    simp [setK, finishEmpty]
  · rw [hstep]
  · rw [hstep]
    simp
  · simp [loop, hstep]

/-- Witness for C7 at a concrete input: element 3 is never printed, so it is
completed with zero footprint at its offset 40 and no fragment appears, even
though the available height is 0. -/
theorem c7_unprinted_removed_witness :
    ipNever (lsC7.store 3) = false ∧
    ((step gnTrue ipNever 0 true true lsC7 3).1.store 3).renderingComplete = true ∧
    ((step gnTrue ipNever 0 true true lsC7 3).1.store 3).renderBottom = 40 ∧
    (step gnTrue ipNever 0 true true lsC7 3).1.renderElements = [] := by
  have hx := c7_unprinted_removed gnTrue ipNever 0 true true lsC7 3 []
    (by decide) (by decide) rfl
  refine ⟨rfl, hx.2.1, ?_, hx.2.2.2.1⟩
  rw [hx.2.2.1]
  decide

/-- C3: with page breaks disallowed, reaching a page-break element (from any
mid-pass state) clears the entire pending queue, returns true immediately,
and emits no fragment for the break nor for any pending element after it;
at container level the queue becomes empty, the call reports drained, and
`renderElements` is untouched. -/
theorem c3_forbidden_break (gn : Elem → Int → Int → RenderResult) (ip : Elem → Bool)
    (h : Int) (epb : Bool) :
    (∀ (ls : LoopState) (e : Nat) (rest : List Nat),
      (ls.store e).isPageBreak = true →
      predBlocked ls.completed ls.store (ls.store e) = false →
      loop gn ip h false epb ls (e :: rest) = (ls, [], true))
    ∧ (∀ (c : CState) (e : Nat) (rest : List Nat),
      c.allowPageBreak = false →
      c.sortedElements = e :: rest →
      (c.store e).isPageBreak = true →
      (c.store e).predecessor = none →
      (createRenderElements gn ip h c).2 = true ∧
      (createRenderElements gn ip h c).1.sortedElements = [] ∧
      (createRenderElements gn ip h c).1.renderElements = c.renderElements) := by
  have habort : ∀ (epb' : Bool) (ls : LoopState) (e : Nat) (rest : List Nat),
      (ls.store e).isPageBreak = true →
      predBlocked ls.completed ls.store (ls.store e) = false →
      loop gn ip h false epb' ls (e :: rest) = (ls, [], true) := by
    intro epb' ls e rest hpb hb
    have hstep : step gn ip h false epb' ls e = (ls, StepRes.abort) := by
      unfold step
      dsimp only
      rw [if_neg (by simp [hb]), if_pos (by simp [hpb]), if_neg (by simp)]
    simp [loop, hstep]
  refine ⟨habort epb, ?_⟩
  intro c e rest hapb hsort hpb hpred
  have hb : predBlocked ([] : List Nat) c.store (c.store e) = false := by
    simp [predBlocked, hpred]
  have hl := habort c.explicitPageBreak
    { store := c.store, renderElements := c.renderElements, pageY := c.pageY,
      completed := [], processed := [], setEPB := false } e rest hpb hb
  unfold createRenderElements
  rw [hapb, hsort]
  dsimp only
  rw [hl]
  exact ⟨rfl, rfl, rfl⟩

/-- Witness for C3 at a concrete input: the header-band container `cC3`
(breaks disallowed) whose queue starts with a page break drains immediately,
discarding the pending element 6 and appending nothing. -/
theorem c3_forbidden_break_witness :
    cC3.allowPageBreak = false ∧ (cC3.store 5).isPageBreak = true ∧
    cC3.sortedElements = [5, 6] ∧
    (createRenderElements gnTrue ipTrue 100 cC3).2 = true ∧
    (createRenderElements gnTrue ipTrue 100 cC3).1.sortedElements = [] ∧
    (createRenderElements gnTrue ipTrue 100 cC3).1.renderElements = cC3.renderElements := by
  have hx := (c3_forbidden_break gnTrue ipTrue 100 cC3.explicitPageBreak).2 cC3 5 [6]
    rfl rfl rfl rfl
  exact ⟨rfl, rfl, rfl, hx.1, hx.2.1, hx.2.2⟩

/-- Counterexample to C5 as stated: in the freshly constructed and prepared
container `cC5` (no manual page break ever consumed), `explicit_page_break`
is already true from construction and the first pass places the pending
element at offset 50 (its nominal top), not at offset 0. -/
theorem c5_counterexample :
    cC5.explicitPageBreak = true ∧ cC5.pageY = 0 ∧
    (cC5.store 1).predecessor = none ∧
    (createRenderElements gnTrue ipTrue 100 cC5).1.renderElements = [RFrag.content 1 50] ∧
    (50 : Int) ≠ 0 := by
  decide

/-- C5 (amended): a newly constructed container already has
`explicit_page_break` true and `page_y` 0 (and `prepare` changes neither),
so on the first pass every pending first-render element without a
predecessor is placed at offset `elem.y - page_y` (its nominal top), not at
offset 0; offset 0 applies only when the element is not on its first render
or no explicit break is active. -/
theorem c5_first_page_offset :
    (∀ st : Nat → Elem,
      (initContainer st).explicitPageBreak = true ∧ (initContainer st).pageY = 0)
    ∧ (∀ (pe : Elem → Elem) (pdfDoc ov : Bool) (c : CState),
      (prepare pe pdfDoc ov c).explicitPageBreak = c.explicitPageBreak ∧
      (prepare pe pdfDoc ov c).pageY = c.pageY)
    ∧ (∀ (store : Nat → Elem) (pageY : Int) (e : Elem),
      e.predecessor = none → e.firstRenderElement = true →
      computeOffset true true pageY store e = e.y - pageY)
    ∧ (∀ (store : Nat → Elem) (pageY : Int) (e : Elem),
      e.predecessor = none → e.firstRenderElement = false →
      computeOffset true true pageY store e = 0) := by
  refine ⟨fun st => ⟨rfl, rfl⟩, ?_, ?_, ?_⟩
  · intro pe pdfDoc ov c
    unfold prepare
    dsimp only
    split_ifs <;> exact ⟨rfl, rfl⟩
  · intro store pageY e hpred hfirst
    unfold computeOffset
    rw [hpred]
    simp [hfirst]
  · intro store pageY e hpred hfirst
    unfold computeOffset
    rw [hpred]
    simp [hfirst]

/-- Witness for C5 (amended) at a concrete input: the element of `cC5`
(first render, no predecessor, fresh container) gets offset 50, its nominal
top. -/
theorem c5_first_page_offset_witness :
    elemFifty.predecessor = none ∧ elemFifty.firstRenderElement = true ∧
    computeOffset true true 0 stZero elemFifty = 50 := by
  refine ⟨rfl, rfl, ?_⟩
  have hx := c5_first_page_offset.2.2.1 stZero 0 elemFifty rfl rfl
  rw [hx]
  decide

/-- Counterexample to C6 as stated: in `cC6` the element's computed offset
is exactly 100 on a page of height 100 — the offset does not exceed the
available height, yet the pass ends the page without asking the element to
render (no content fragment; the element stays pending). -/
theorem c6_counterexample :
    computeOffset cC6.allowPageBreak cC6.explicitPageBreak cC6.pageY cC6.store (cC6.store 2)
      = 100 ∧
    ¬((100 : Int) > 100) ∧
    (createRenderElements gnTrue ipTrue 100 cC6).1.renderElements = [RFrag.pageBreak (-1)] ∧
    (createRenderElements gnTrue ipTrue 100 cC6).1.sortedElements = [2] ∧
    (createRenderElements gnTrue ipTrue 100 cC6).2 = false := by
  decide

/-- C8: after a `create_render_elements` call starting from an empty
`renderElements` queue, the queue consists of zero or more content fragments
followed by exactly one page-break sentinel (with the reserved marker
`y = -1`) when the call reports pending elements remain, and of content
fragments only (no sentinel) when the container is drained; drained is
reported exactly when `sortedElements` is empty. -/
theorem c8_sentinel_structure (gn : Elem → Int → Int → RenderResult) (ip : Elem → Bool)
    (h : Int) (c : CState) (hrel : c.renderElements = []) :
    ((createRenderElements gn ip h c).2 = true →
      ∀ f ∈ (createRenderElements gn ip h c).1.renderElements, ∃ i o, f = RFrag.content i o)
    ∧ ((createRenderElements gn ip h c).2 = false →
      ∃ frags, (∀ f ∈ frags, ∃ i o, f = RFrag.content i o) ∧
        (createRenderElements gn ip h c).1.renderElements = frags ++ [RFrag.pageBreak (-1)])
    ∧ ((createRenderElements gn ip h c).2 = true ↔
      (createRenderElements gn ip h c).1.sortedElements = []) := by
  rcases hl : loop gn ip h c.allowPageBreak c.explicitPageBreak
      { store := c.store, renderElements := c.renderElements, pageY := c.pageY,
        completed := [], processed := [], setEPB := false } c.sortedElements with ⟨ls, rem, ab⟩
  rcases loop_rel_content gn ip h c.allowPageBreak c.explicitPageBreak c.sortedElements
      { store := c.store, renderElements := c.renderElements, pageY := c.pageY,
        completed := [], processed := [], setEPB := false } with ⟨new, hnew, hcont⟩
  rw [hl] at hnew
  dsimp only at hnew
  rw [hrel] at hnew
  simp only [List.nil_append] at hnew
  cases ab
  · cases rem with
    | nil =>
      refine ⟨?_, ?_, ?_⟩
      · intro _ f hf
        simp only [createRenderElements, hl, List.isEmpty_nil, if_true] at hf
        rw [hnew] at hf
        exact hcont f hf
      · intro hfalse
        simp [createRenderElements, hl] at hfalse
      · simp [createRenderElements, hl]
    | cons r rs =>
      refine ⟨?_, ?_, ?_⟩
      · intro htrue
        simp [createRenderElements, hl] at htrue
      · intro _
        refine ⟨ls.renderElements, ?_, ?_⟩
        · rw [hnew]
          exact hcont
        · simp [createRenderElements, hl]
      · simp [createRenderElements, hl]
  · refine ⟨?_, ?_, ?_⟩
    · intro _ f hf
      simp only [createRenderElements, hl] at hf
      rw [hnew] at hf
      exact hcont f hf
    · intro hfalse
      simp [createRenderElements, hl] at hfalse
    · simp [createRenderElements, hl]

/-- Witness for C8 at a concrete input: `cC8` starts with an empty fragment
queue; after one pass element 8 is still pending, so the queue is a content
fragment for element 7 followed by the sentinel. -/
theorem c8_sentinel_structure_witness :
    cC8.renderElements = [] ∧
    ∃ frags, (∀ f ∈ frags, ∃ i o, f = RFrag.content i o) ∧
      (createRenderElements gnTrue ipTrue 100 cC8).1.renderElements
        = frags ++ [RFrag.pageBreak (-1)] :=
  ⟨rfl, (c8_sentinel_structure gnTrue ipTrue 100 cC8 rfl).2.1 (by decide)⟩

/-- C10: none of `prepare`, `create_render_elements` and `render_pdf`
modifies the `doc_elements` list (membership or insertion order);
`render_pdf` additionally shrinks only `render_elements`, leaving the heap
and the pending queue untouched (and `render_spreadsheet`, embedded as the
pure `renderSpreadsheet`, returns only the row/column pair). -/
theorem c10_doc_elements_preserved :
    (∀ (pe : Elem → Elem) (pdfDoc ov : Bool) (c : CState),
      (prepare pe pdfDoc ov c).docElements = c.docElements)
    ∧ (∀ (gn : Elem → Int → Int → RenderResult) (ip : Elem → Bool) (h : Int) (c : CState),
      ((createRenderElements gn ip h c).1).docElements = c.docElements)
    ∧ (∀ c : CState,
      ((renderPdf c).1).docElements = c.docElements ∧
      ((renderPdf c).1).store = c.store ∧
      ((renderPdf c).1).sortedElements = c.sortedElements) := by
  refine ⟨?_, ?_, ?_⟩
  · intro pe pdfDoc ov c
    unfold prepare
    dsimp only
    split_ifs <;> rfl
  · intro gn ip h c
    unfold createRenderElements
    dsimp only
    rcases hl : loop gn ip h c.allowPageBreak c.explicitPageBreak
        { store := c.store, renderElements := c.renderElements, pageY := c.pageY,
          completed := [], processed := [], setEPB := false } c.sortedElements with ⟨ls, rem, ab⟩
    cases ab
    · dsimp only
      split_ifs <;> rfl
    · rfl
  · intro c
    unfold renderPdf
    rcases hs : splitAtBreak c.renderElements with ⟨em, rem⟩
    exact ⟨rfl, rfl, rfl⟩

section Spreadsheet

lemma dropWhile_length_le (p : Nat → Bool) :
    ∀ l : List Nat, (List.dropWhile p l).length ≤ l.length
  | [] => le_refl _
  | x :: xs => by
    rw [List.dropWhile]
    cases hp : p x
    · simp
    · simpa using Nat.le_succ_of_le (dropWhile_length_le p xs)

lemma ssGo_congr (o : Elem → Nat → Nat → Nat × Nat) (store : Nat → Elem) (col : Nat) :
    ∀ (f : Nat) (g : Nat) (l : List Nat) (row maxCol : Nat),
      l.length ≤ f → l.length ≤ g →
      ssGo o store col f l row maxCol = ssGo o store col g l row maxCol := by
  intro f
  induction f with
  | zero =>
    intro g l row maxCol hf _
    have hl : l = [] := List.length_eq_zero.mp (Nat.le_zero.mp hf)
    subst hl
    simp [ssGo]
  | succ f ih =>
    intro g l row maxCol hf hg
    cases l with
    | nil => simp [ssGo]
    | cons e rest =>
      cases g with
      | zero => exact absurd hg (by simp)
      | succ g =>
        rcases hcs : clusterStep o store row col maxCol
            (e :: rest.takeWhile (fun i => decide ((store i).y = (store e).y)))
          with ⟨row', maxCol'⟩
        have hrest : (rest.dropWhile (fun i => decide ((store i).y = (store e).y))).length
            ≤ rest.length := dropWhile_length_le _ rest
        have hf' : (rest.dropWhile (fun i => decide ((store i).y = (store e).y))).length ≤ f :=
          le_trans hrest (by simpa using hf)
        have hg' : (rest.dropWhile (fun i => decide ((store i).y = (store e).y))).length ≤ g :=
          le_trans hrest (by simpa using hg)
        simp only [ssGo, hcs]
        exact ih g _ row' maxCol' hf' hg'

lemma clustersGo_congr (store : Nat → Elem) :
    ∀ (f : Nat) (g : Nat) (l : List Nat), l.length ≤ f → l.length ≤ g →
      clustersGo store f l = clustersGo store g l := by
  intro f
  induction f with
  | zero =>
    intro g l hf _
    have hl : l = [] := List.length_eq_zero.mp (Nat.le_zero.mp hf)
    subst hl
    simp [clustersGo]
  | succ f ih =>
    intro g l hf hg
    cases l with
    | nil => simp [clustersGo]
    | cons e rest =>
      cases g with
      | zero => exact absurd hg (by simp)
      | succ g =>
        have hrest : (rest.dropWhile (fun i => decide ((store i).y = (store e).y))).length
            ≤ rest.length := dropWhile_length_le _ rest
        have hf' : (rest.dropWhile (fun i => decide ((store i).y = (store e).y))).length ≤ f :=
          le_trans hrest (by simpa using hf)
        have hg' : (rest.dropWhile (fun i => decide ((store i).y = (store e).y))).length ≤ g :=
          le_trans hrest (by simpa using hg)
        simp only [clustersGo]
        rw [ih g _ hf' hg']

lemma ssGo_eq_clusters (o : Elem → Nat → Nat → Nat × Nat) (store : Nat → Elem) (col : Nat) :
    ∀ (f : Nat) (l : List Nat) (row maxCol : Nat), l.length ≤ f →
      ssGo o store col f l row maxCol =
        (clustersGo store f l).foldl
          (fun acc cl => clusterStep o store acc.1 col acc.2 cl) (row, maxCol) := by
  intro f
  induction f with
  | zero =>
    intro l row maxCol hf
    have hl : l = [] := List.length_eq_zero.mp (Nat.le_zero.mp hf)
    subst hl
    simp [ssGo, clustersGo]
  | succ f ih =>
    intro l row maxCol hf
    cases l with
    | nil => simp [ssGo, clustersGo]
    | cons e rest =>
      rcases hcs : clusterStep o store row col maxCol
          (e :: rest.takeWhile (fun i => decide ((store i).y = (store e).y)))
        with ⟨row', maxCol'⟩
      have hrest : (rest.dropWhile (fun i => decide ((store i).y = (store e).y))).length
          ≤ rest.length := dropWhile_length_le _ rest
      have hf' : (rest.dropWhile (fun i => decide ((store i).y = (store e).y))).length ≤ f :=
        le_trans hrest (by simpa using hf)
      simp only [ssGo, clustersGo, hcs, List.foldl_cons]
      rw [ih _ row' maxCol' hf']

lemma clusters_flatten (store : Nat → Elem) :
    ∀ (f : Nat) (l : List Nat), l.length ≤ f → (clustersGo store f l).flatten = l := by
  intro f
  induction f with
  | zero =>
    intro l hf
    have hl : l = [] := List.length_eq_zero.mp (Nat.le_zero.mp hf)
    subst hl
    simp [clustersGo]
  | succ f ih =>
    intro l hf
    cases l with
    | nil => simp [clustersGo]
    | cons e rest =>
      have hrest : (rest.dropWhile (fun i => decide ((store i).y = (store e).y))).length
          ≤ rest.length := dropWhile_length_le _ rest
      have hf' : (rest.dropWhile (fun i => decide ((store i).y = (store e).y))).length ≤ f :=
        le_trans hrest (by simpa using hf)
      simp only [clustersGo, List.flatten_cons]
      rw [ih _ hf']
      simp [List.takeWhile_append_dropWhile]

end Spreadsheet

/-- C9: `render_spreadsheet` processes the queue as the partition into
maximal runs of consecutive elements sharing one top coordinate (the fold of
`clusterStep` over `clusters`, each cluster emitted from one starting row),
the partition concatenates back to the queue and unfolds one maximal run at
a time, and on the concrete example (three elements at top 0, one at top 10)
there are exactly two row clusters and the returned pair is the maximum row
and column reported by the emitted elements. -/
theorem c9_spreadsheet_clusters :
    (∀ (o : Elem → Nat → Nat → Nat × Nat) (store : Nat → Elem) (l : List Nat) (row col : Nat),
      renderSpreadsheet o store l row col =
        (clusters store l).foldl
          (fun acc cl => clusterStep o store acc.1 col acc.2 cl) (row, col))
    ∧ (∀ (store : Nat → Elem) (l : List Nat), (clusters store l).flatten = l)
    ∧ (∀ (store : Nat → Elem) (e : Nat) (rest : List Nat),
      clusters store (e :: rest) =
        (e :: rest.takeWhile (fun i => decide ((store i).y = (store e).y))) ::
          clusters store (rest.dropWhile (fun i => decide ((store i).y = (store e).y))))
    ∧ (clusters stC9 [1, 2, 3, 4]).length = 2
    ∧ renderSpreadsheet oC9 stC9 [1, 2, 3, 4] 0 0 = (2, 3) := by
  refine ⟨?_, ?_, ?_, by decide, by decide⟩
  · intro o store l row col
    exact ssGo_eq_clusters o store col l.length l row col (le_refl _)
  · intro store l
    exact clusters_flatten store l.length l (le_refl _)
  · intro store e rest
    show clustersGo store (e :: rest).length (e :: rest) = _
    simp only [List.length_cons, clustersGo]
    rw [clustersGo_congr store rest.length
      (rest.dropWhile (fun i => decide ((store i).y = (store e).y))).length _
      (dropWhile_length_le _ rest) (le_refl _)]
    rfl

section PredecessorScan

lemma scanStep_none (y : Int) (c : Nat × Elem) :
    scanStep y none c = if c.2.bottom ≤ y then some c else none := by
  simp [scanStep]

lemma scanStep_some (y : Int) (c : Nat × Elem) (a : Nat × Elem) :
    scanStep y (some a) c =
      if c.2.bottom ≤ y ∧ a.2.bottom < c.2.bottom then some c else some a := by
  unfold scanStep
  dsimp only
  split_ifs with h1 h2 h2 <;> simp_all

lemma scan_fold (y : Int) :
    ∀ (cands : List (Nat × Elem)) (acc : Option (Nat × Elem)),
      (∀ a, acc = some a → a.2.bottom ≤ y) →
      (List.foldl (scanStep y) acc cands = none →
        acc = none ∧ ∀ q ∈ cands, ¬(q.2.bottom ≤ y)) ∧
      (∀ p, List.foldl (scanStep y) acc cands = some p →
        p.2.bottom ≤ y ∧ (acc = some p ∨ p ∈ cands) ∧
        (∀ q ∈ cands, q.2.bottom ≤ y → q.2.bottom ≤ p.2.bottom) ∧
        (∀ a, acc = some a → a.2.bottom ≤ p.2.bottom)) := by
  intro cands
  induction cands with
  | nil =>
    intro acc hacc
    constructor
    · intro hres
      simp only [List.foldl_nil] at hres
      exact ⟨hres, by simp⟩
    · intro p hres
      simp only [List.foldl_nil] at hres
      exact ⟨hacc p hres, Or.inl hres, by simp, fun a ha => by rw [ha] at hres; injection hres with h2; rw [h2]⟩
  | cons c rest ih =>
    intro acc hacc
    simp only [List.foldl_cons]
    cases hc : acc with
    | none =>
      rw [scanStep_none]
      by_cases hy : c.2.bottom ≤ y
      · rw [if_pos hy]
        have hacc' : ∀ a, some c = some a → a.2.bottom ≤ y := by
          intro a ha; injection ha with h2; rw [← h2]; exact hy
        rcases ih (some c) hacc' with ⟨ihn, ihs⟩
        constructor
        · intro hres
          exact absurd (ihn hres).1 (by simp)
        · intro p hres
          rcases ihs p hres with ⟨hp1, hp2, hp3, hp4⟩
          refine ⟨hp1, ?_, ?_, ?_⟩
          · rcases hp2 with hp2 | hp2
            · injection hp2 with h2
              exact Or.inr (h2 ▸ List.mem_cons_self c rest)
            · exact Or.inr (List.mem_cons_of_mem _ hp2)
          · intro q hq hqy
            rcases List.mem_cons.mp hq with hq | hq
            · rw [hq]
              exact hp4 c rfl
            · exact hp3 q hq hqy
          · intro a ha
            exact absurd ha (by simp)
      · rw [if_neg hy]
        rcases ih none (by intro a ha; cases ha) with ⟨ihn, ihs⟩
        constructor
        · intro hres
          refine ⟨rfl, ?_⟩
          intro q hq
          rcases List.mem_cons.mp hq with hq | hq
          · rw [hq]; exact hy
          · exact (ihn hres).2 q hq
        · intro p hres
          rcases ihs p hres with ⟨hp1, hp2, hp3, hp4⟩
          refine ⟨hp1, ?_, ?_, ?_⟩
          · rcases hp2 with hp2 | hp2
            · cases hp2
            · exact Or.inr (List.mem_cons_of_mem _ hp2)
          · intro q hq hqy
            rcases List.mem_cons.mp hq with hq | hq
            · rw [hq] at hqy
              exact absurd hqy hy
            · exact hp3 q hq hqy
          · intro a ha
            exact absurd ha (by simp)
    | some a0 =>
      have ha0y : a0.2.bottom ≤ y := hacc a0 hc
      rw [scanStep_some]
      by_cases hcond : c.2.bottom ≤ y ∧ a0.2.bottom < c.2.bottom
      · rw [if_pos hcond]
        have hacc' : ∀ a, some c = some a → a.2.bottom ≤ y := by
          intro a ha; injection ha with h2; rw [← h2]; exact hcond.1
        rcases ih (some c) hacc' with ⟨ihn, ihs⟩
        constructor
        · intro hres
          exact absurd (ihn hres).1 (by simp)
        · intro p hres
          rcases ihs p hres with ⟨hp1, hp2, hp3, hp4⟩
          refine ⟨hp1, ?_, ?_, ?_⟩
          · rcases hp2 with hp2 | hp2
            · injection hp2 with h2
              exact Or.inr (h2 ▸ List.mem_cons_self c rest)
            · exact Or.inr (List.mem_cons_of_mem _ hp2)
          · intro q hq hqy
            rcases List.mem_cons.mp hq with hq | hq
            · rw [hq]
              exact hp4 c rfl
            · exact hp3 q hq hqy
          · intro a ha
            injection ha with h2
            rw [← h2]
            exact le_of_lt (lt_of_lt_of_le hcond.2 (hp4 c rfl))
      · rw [if_neg hcond]
        rcases ih (some a0) (by intro a ha; injection ha with h2; rw [← h2]; exact ha0y)
          with ⟨ihn, ihs⟩
        constructor
        · intro hres
          exact absurd (ihn hres).1 (by simp)
        · intro p hres
          rcases ihs p hres with ⟨hp1, hp2, hp3, hp4⟩
          refine ⟨hp1, ?_, ?_, ?_⟩
          · rcases hp2 with hp2 | hp2
            · exact Or.inl (hc ▸ hp2)
            · exact Or.inr (List.mem_cons_of_mem _ hp2)
          · intro q hq hqy
            rcases List.mem_cons.mp hq with hq | hq
            · rw [hq] at hqy ⊢
              have hca : c.2.bottom ≤ a0.2.bottom := by
                by_contra hlt
                exact hcond ⟨hqy, lt_of_not_le hlt⟩
              exact le_trans hca (hp4 a0 rfl)
            · exact hp3 q hq hqy
          · intro a ha
            injection ha with h2
            rw [← h2]
            exact hp4 a0 rfl

lemma scan_congr (y : Int) (st st' : Nat → Elem)
    (hg : ∀ j, (st j).bottom = (st' j).bottom) :
    ∀ (l : List Nat) (acc acc' : Option (Nat × Elem)),
      ((acc = none ∧ acc' = none) ∨ ∃ k, acc = some (k, st k) ∧ acc' = some (k, st' k)) →
      ((List.foldl (scanStep y) acc (l.map (fun j => (j, st j))) = none ∧
        List.foldl (scanStep y) acc' (l.map (fun j => (j, st' j))) = none) ∨
       ∃ k, List.foldl (scanStep y) acc (l.map (fun j => (j, st j))) = some (k, st k) ∧
         List.foldl (scanStep y) acc' (l.map (fun j => (j, st' j))) = some (k, st' k)) := by
  intro l
  induction l with
  | nil =>
    intro acc acc' hrel
    simpa using hrel
  | cons j rest ih =>
    intro acc acc' hrel
    simp only [List.map_cons, List.foldl_cons]
    apply ih
    rcases hrel with ⟨h1, h2⟩ | ⟨k, h1, h2⟩
    · subst h1
      subst h2
      rw [scanStep_none, scanStep_none]
      by_cases hy : (st j).bottom ≤ y
      · rw [if_pos hy, if_pos (by rw [← hg j]; exact hy)]
        exact Or.inr ⟨j, rfl, rfl⟩
      · rw [if_neg hy, if_neg (by rw [← hg j]; exact hy)]
        exact Or.inl ⟨rfl, rfl⟩
    · subst h1
      subst h2
      rw [scanStep_some, scanStep_some]
      by_cases hcond : (st j).bottom ≤ y ∧ (st k).bottom < (st j).bottom
      · rw [if_pos hcond, if_pos (by rw [← hg j, ← hg k]; exact hcond)]
        exact Or.inr ⟨j, rfl, rfl⟩
      · rw [if_neg hcond, if_neg (by rw [← hg j, ← hg k]; exact hcond)]
        exact Or.inr ⟨k, rfl, rfl⟩

lemma setPredecessor_pred_self (st : Nat → Elem) (a b : Nat) :
    ((setPredecessor st a b) a).predecessor = some b := by
  unfold setPredecessor
  simp only [setK]
  split_ifs <;> simp

lemma setPredecessor_pred_other (st : Nat → Elem) {a b k : Nat} (hk : k ≠ a) :
    ((setPredecessor st a b) k).predecessor = (st k).predecessor := by
  unfold setPredecessor
  simp only [setK]
  split_ifs <;> simp_all

lemma setPredecessor_geom (st : Nat → Elem) (a b k : Nat) :
    ((setPredecessor st a b) k).y = (st k).y ∧
    ((setPredecessor st a b) k).bottom = (st k).bottom ∧
    ((setPredecessor st a b) k).isPageBreak = (st k).isPageBreak := by
  unfold setPredecessor
  simp only [setK]
  split_ifs <;> simp

lemma assignStep_geom (sorted : List Nat) (n : Nat) (st : Nat → Elem) (k : Nat) :
    ((assignStep sorted n st) k).y = (st k).y ∧
    ((assignStep sorted n st) k).bottom = (st k).bottom ∧
    ((assignStep sorted n st) k).isPageBreak = (st k).isPageBreak := by
  unfold assignStep
  cases hscan : scanPred (st (sorted.getD n 0)).y
      (((sorted.take n).reverse).map (fun j => (j, st j))) with
  | none => simp
  | some p =>
    by_cases hp : p.2.isPageBreak <;> simp [hp, setPredecessor_geom]

lemma assignLoop_geom (sorted : List Nat) :
    ∀ (n : Nat) (st : Nat → Elem) (k : Nat),
      ((assignLoop sorted n st) k).y = (st k).y ∧
      ((assignLoop sorted n st) k).bottom = (st k).bottom ∧
      ((assignLoop sorted n st) k).isPageBreak = (st k).isPageBreak := by
  intro n
  induction n with
  | zero => intro st k; exact ⟨rfl, rfl, rfl⟩
  | succ n ih =>
    intro st k
    have h1 := assignStep_geom sorted n (assignLoop sorted n st) k
    have h2 := ih st k
    exact ⟨h1.1.trans h2.1, h1.2.1.trans h2.2.1, h1.2.2.trans h2.2.2⟩

lemma assignStep_pred_other (sorted : List Nat) (n : Nat) (st : Nat → Elem) (k : Nat)
    (hk : k ≠ sorted.getD n 0) :
    ((assignStep sorted n st) k).predecessor = (st k).predecessor := by
  unfold assignStep
  cases hscan : scanPred (st (sorted.getD n 0)).y
      (((sorted.take n).reverse).map (fun j => (j, st j))) with
  | none => rfl
  | some p =>
    by_cases hp : p.2.isPageBreak
    · simp [hp]
    · simp only [hp, Bool.false_eq_true, if_false]
      exact setPredecessor_pred_other st hk

lemma assignLoop_pred_outside (sorted : List Nat) :
    ∀ (n : Nat) (st : Nat → Elem) (k : Nat), (∀ j, j < n → sorted.getD j 0 ≠ k) →
      ((assignLoop sorted n st) k).predecessor = (st k).predecessor := by
  intro n
  induction n with
  | zero => intro st k _; rfl
  | succ n ih =>
    intro st k hj
    have h1 := assignStep_pred_other sorted n (assignLoop sorted n st)
      k (fun hh => hj n (Nat.lt_succ_self n) hh.symm)
    exact h1.trans (ih st k (fun j hjn => hj j (Nat.lt_succ_of_lt hjn)))

lemma assignLoop_pred_tail (sorted : List Nat) (i : Nat) (eid : Nat) :
    ∀ (n : Nat) (st : Nat → Elem), i < n → (∀ j, i < j → j < n → sorted.getD j 0 ≠ eid) →
      ((assignLoop sorted n st) eid).predecessor
        = ((assignLoop sorted (i + 1) st) eid).predecessor := by
  intro n
  induction n with
  | zero => intro st hin _; exact absurd hin (Nat.not_lt_zero i)
  | succ n ih =>
    intro st hin hj
    rcases Nat.lt_succ_iff_lt_or_eq.mp hin with hin' | hin'
    · have h1 := assignStep_pred_other sorted n (assignLoop sorted n st)
        eid (fun hh => hj n hin' (Nat.lt_succ_self n) hh.symm)
      exact h1.trans (ih st hin' (fun j h1' h2' => hj j h1' (Nat.lt_succ_of_lt h2')))
    · rw [hin']

lemma assignStep_at (sorted : List Nat) (i : Nat) (st : Nat → Elem)
    (hfresh : (st (sorted.getD i 0)).predecessor = none) :
    ((assignStep sorted i st) (sorted.getD i 0)).predecessor =
      (match scanPred (st (sorted.getD i 0)).y
          (((sorted.take i).reverse).map (fun j => (j, st j))) with
       | some p => if p.2.isPageBreak then none else some p.1
       | none => none) := by
  unfold assignStep
  cases hscan : scanPred (st (sorted.getD i 0)).y
      (((sorted.take i).reverse).map (fun j => (j, st j))) with
  | none => simpa using hfresh
  | some p =>
    by_cases hp : p.2.isPageBreak
    · simpa [hp] using hfresh
    · simp [hp, setPredecessor_pred_self]

end PredecessorScan

/-- Counterexample to C4 as stated: in the prepared container `cC4`
(sorted order: element 1 non-break bottom 10, element 2 page break bottom
20, element 3 top 30), element 1 is an earlier-sorted non-page-break element
with bottom ≤ element 3's top, yet element 3 is assigned no predecessor —
the page-break sentinel wins the greatest-bottom scan and masks the
non-page-break candidate. -/
theorem c4_counterexample :
    cC4.sortedElements = [1, 2, 3] ∧
    (cC4.store 1).isPageBreak = false ∧
    (cC4.store 1).bottom ≤ (cC4.store 3).y ∧
    (cC4.store 2).isPageBreak = true ∧
    (cC4.store 3).predecessor = none := by
  decide

/-- C4 (amended): after the predecessor-assignment pass in document mode,
an element's predecessor is determined by the scan over all earlier-sorted
elements (page breaks included as candidates): the scan finds a candidate
with the greatest bottom among those with bottom ≤ the element's top
(later-sorted candidates win ties), and the element's predecessor is set to
that winner exactly when the winner is not a page break — when the winner
is a page-break sentinel no predecessor is assigned at all, even if a
non-page-break candidate exists; when no candidate qualifies, none is
assigned. -/
theorem c4_predecessor_assignment (store : Nat → Elem) (sorted : List Nat) (i : Nat)
    (hnd : sorted.Nodup) (hi : i < sorted.length)
    (hfresh : (store (sorted.getD i 0)).predecessor = none) :
    (((assignLoop sorted sorted.length store) (sorted.getD i 0)).predecessor =
      (match scanPred (store (sorted.getD i 0)).y
          (((sorted.take i).reverse).map (fun j => (j, store j))) with
       | some p => if p.2.isPageBreak then none else some p.1
       | none => none))
    ∧ (∀ p, scanPred (store (sorted.getD i 0)).y
          (((sorted.take i).reverse).map (fun j => (j, store j))) = some p →
        p.2.bottom ≤ (store (sorted.getD i 0)).y ∧
        p ∈ ((sorted.take i).reverse).map (fun j => (j, store j)) ∧
        ∀ q ∈ ((sorted.take i).reverse).map (fun j => (j, store j)),
          q.2.bottom ≤ (store (sorted.getD i 0)).y → q.2.bottom ≤ p.2.bottom)
    ∧ (scanPred (store (sorted.getD i 0)).y
          (((sorted.take i).reverse).map (fun j => (j, store j))) = none →
        ∀ q ∈ ((sorted.take i).reverse).map (fun j => (j, store j)),
          ¬(q.2.bottom ≤ (store (sorted.getD i 0)).y)) := by
  have hgetne : ∀ j, j < sorted.length → j ≠ i → sorted.getD j 0 ≠ sorted.getD i 0 := by
    intro j hj hji hh
    rw [List.getD_eq_getElem sorted 0 hj, List.getD_eq_getElem sorted 0 hi] at hh
    exact hji ((List.Nodup.getElem_inj_iff hnd).mp hh)
  have hA : ((assignLoop sorted i store) (sorted.getD i 0)).predecessor = none := by
    rw [assignLoop_pred_outside sorted i store _
      (fun j hj => hgetne j (lt_trans hj hi) (Nat.ne_of_lt hj))]
    exact hfresh
  have hB : ((assignLoop sorted sorted.length store) (sorted.getD i 0)).predecessor
      = ((assignLoop sorted (i + 1) store) (sorted.getD i 0)).predecessor :=
    assignLoop_pred_tail sorted i (sorted.getD i 0) sorted.length store hi
      (fun j h1 h2 => hgetne j h2 (Nat.ne_of_gt h1))
  have hC : ((assignLoop sorted (i + 1) store) (sorted.getD i 0)).predecessor
      = (match scanPred ((assignLoop sorted i store) (sorted.getD i 0)).y
            (((sorted.take i).reverse).map (fun j => (j, (assignLoop sorted i store) j))) with
         | some p => if p.2.isPageBreak then none else some p.1
         | none => none) := assignStep_at sorted i (assignLoop sorted i store) hA
  have hy : ((assignLoop sorted i store) (sorted.getD i 0)).y
      = (store (sorted.getD i 0)).y := (assignLoop_geom sorted i store _).1
  have hrel := scan_congr ((store (sorted.getD i 0)).y) (assignLoop sorted i store) store
    (fun j => (assignLoop_geom sorted i store j).2.1)
    ((sorted.take i).reverse) none none (Or.inl ⟨rfl, rfl⟩)
  have hsf := scan_fold ((store (sorted.getD i 0)).y)
    (((sorted.take i).reverse).map (fun j => (j, store j))) none
    (by intro a ha; exact absurd ha (by simp))
  refine ⟨?_, ?_, ?_⟩
  · rw [hB, hC, hy]
    unfold scanPred
    rcases hrel with ⟨hn, hn'⟩ | ⟨k, hk, hk'⟩
    · rw [hn, hn']
    · rw [hk, hk']
      have hpb : ((assignLoop sorted i store) k).isPageBreak = (store k).isPageBreak :=
        (assignLoop_geom sorted i store k).2.2
      dsimp only
      rw [hpb]
  · intro p hp
    rcases hsf.2 p hp with ⟨h1, h2, h3, _⟩
    exact ⟨h1, h2.resolve_left (fun hh => Option.noConfusion hh), h3⟩
  · intro hnone q hq
    exact (hsf.1 hnone).2 q hq

/-- Witness for C4 (amended) at a concrete input: over the heap `stC4` with
sorted order `[1, 2, 3]`, the scan for element 3 (position 2) picks the
page-break element 2 (greatest bottom 20 ≤ 30), so no predecessor is
assigned. -/
theorem c4_predecessor_assignment_witness :
    ([1, 2, 3] : List Nat).Nodup ∧ (stC4 3).predecessor = none ∧
    ((assignLoop [1, 2, 3] 3 stC4) 3).predecessor = none ∧
    scanPred (stC4 3).y ((([1, 2, 3].take 2).reverse).map (fun j => (j, stC4 j)))
      = some (2, stC4 2) ∧
    (stC4 2).isPageBreak = true := by
  have hx := (c4_predecessor_assignment stC4 [1, 2, 3] 2 (by decide) (by decide) rfl).1
  refine ⟨by decide, rfl, ?_, by decide, rfl⟩
  have hx2 : ((assignLoop [1, 2, 3] 3 stC4) 3).predecessor =
      (match scanPred (stC4 3).y ((([1, 2, 3].take 2).reverse).map (fun j => (j, stC4 j))) with
       | some p => if p.2.isPageBreak then none else some p.1
       | none => none) := hx
  rw [hx2]
  decide

end ReportBro
